import Mathlib

/-!
# Verification of the stop-and-search data collection pipeline

Shallow embedding of `src/data_collection_script.py`: JSON-like record
values, the record fetch loop (`fetch_stops_data`), the catalog date
filter (`fetch_available_dates`), the output-path computation and early
exits of `main`, and the JSON serialization used by `save_data`.

Network calls are modelled by passing in the decoded catalog
(`response.json() if response.status_code == 200 else []` becomes a
parameter) and an oracle mapping each `(force, date)` request to its
outcome.  `time.sleep` has no observable effect in the model.
-/

/-- A JSON value as handled by the script: `null`, booleans, integers,
strings, arrays and objects.  Objects keep insertion order, as Python
dicts do.  (Floating-point numbers are outside the model.) -/
inductive J where
  | null : J
  | bool (b : Bool) : J
  | int (n : Int) : J
  | str (s : String) : J
  | arr (elems : List J) : J
  | obj (fields : List (String × J)) : J

/-- A raw record from the `stops-force` endpoint: a Python dict,
i.e. an ordered association list of fields. -/
abbrev Record := List (String × J)

/-- Python `d[k]`: value of the first field named `k` (dict keys are
unique, so "first" is exact). -/
def dictGet (d : Record) (k : String) : Option J :=
  (d.find? (fun p => p.1 == k)).map (fun p => p.2)

/-- Python `d[k] = v`: if the key is present (dict keys are unique, so
at most once) its value is replaced in place, keeping its position;
otherwise the pair is appended at the end. -/
def dictSet (d : Record) (k : String) (v : J) : Record :=
  match d with
  | [] => [(k, v)]
  | p :: rest => if p.1 == k then (k, v) :: rest else p :: dictSet rest k v

/-- Lines 82-84: `record['date'] = date; record['force_id'] = force_id`. -/
def tagRecord (date force_id : String) (r : Record) : Record :=
  dictSet (dictSet r "date" (J.str date)) "force_id" (J.str force_id)

/-- One decoded element of the `crimes-street-dates` catalog.  `date` is
the `'date'` field; `forces` is `month_data.get('stop-and-search', [])`,
so a missing `stop-and-search` key is the empty list. -/
structure CatEntry where
  date : String
  forces : List String
deriving DecidableEq

/-- Outcome of one `requests.get` on the `stops-force` endpoint:
either the call raised a transport-level exception, or it returned a
response with a status code and a decoded JSON body. -/
inductive ReqResult where
  | exn : ReqResult
  | resp (status : Nat) (stops : List Record) : ReqResult

/-- The network oracle: `(force, date) ↦` outcome of that request. -/
abbrev Oracle := String → String → ReqResult

/-- Lines 69-97, body of the inner `for force_id in forces` loop for one
pair: returns (records appended, records counted, requests counted).
`total_requests` is incremented only after `requests.get` returns, so an
exception from the call itself contributes no request.  Records are
tagged and appended in response order; `total_records += len(stops)`
runs only in the non-empty branch. -/
def fetchForce (oracle : Oracle) (date force_id : String) :
    List Record × Nat × Nat :=
  match oracle force_id date with
  | .exn => ([], 0, 0)
  | .resp status stops =>
    if status == 200 then
      if stops.isEmpty then ([], 0, 1)
      else ((stops.map (tagRecord date force_id)), stops.length, 1)
    else ([], 0, 1)

/-- The inner loop over `forces`, accumulating in order. -/
def fetchForces (oracle : Oracle) (date : String) :
    List String → List Record × Nat × Nat
  | [] => ([], 0, 0)
  | f :: fs =>
    let r := fetchForce oracle date f
    let rest := fetchForces oracle date fs
    (r.1 ++ rest.1, r.2.1 + rest.2.1, r.2.2 + rest.2.2)

/-- Lines 50-99, `fetch_stops_data`: the outer loop over the catalog.
An entry with an empty force list is skipped (`if not forces: continue`).
Returns `(all_records, total_records, total_requests)`. -/
def fetch_stops_data (oracle : Oracle) :
    List CatEntry → List Record × Nat × Nat
  | [] => ([], 0, 0)
  | e :: es =>
    let r := if e.forces.isEmpty then ([], 0, 0)
             else fetchForces oracle e.date e.forces
    let rest := fetch_stops_data oracle es
    (r.1 ++ rest.1, r.2.1 + rest.2.1, r.2.2 + rest.2.2)

/-- A month as parsed by `datetime.strptime(s, "%Y-%m")`: (year, month). -/
abbrev YM := Nat × Nat

/-- `datetime` comparison restricted to year-month values:
lexicographic on (year, month). -/
def ymLt (a b : YM) : Bool :=
  a.1 < b.1 || (a.1 == b.1 && a.2 < b.2)

/-- Model of `datetime.strptime(s, "%Y-%m")` on the catalog's date
strings: four digits, a dash, two digits, month in 1..12, year ≥ 1
(`datetime.MINYEAR`).  `none` models the `ValueError` raise. -/
def parseYM (s : String) : Option YM :=
  match s.data with
  | [a, b, c, d, dash, e, f] =>
    if dash = '-' && a.isDigit && b.isDigit && c.isDigit && d.isDigit
        && e.isDigit && f.isDigit then
      let y := (((a.toNat - 48) * 10 + (b.toNat - 48)) * 10
                 + (c.toNat - 48)) * 10 + (d.toNat - 48)
      let m := (e.toNat - 48) * 10 + (f.toNat - 48)
      if 1 ≤ y && 1 ≤ m && m ≤ 12 then some (y, m) else none
    else none
  | _ => none

/-- The filtering loop of lines 26-36: builds `filtered_data`, raising
(`Except.error`) if `strptime` fails on an entry's date. -/
def filterByRange (start_date end_date : Option YM) :
    List CatEntry → Except String (List CatEntry)
  | [] => .ok []
  | en :: rest =>
    match parseYM en.date with
    | none => .error ("Invalid date: " ++ en.date)
    | some month_date =>
      let skip :=
        (match start_date with
         | some sd => ymLt month_date sd
         | none => false)
        || (match end_date with
            | some ed => ymLt ed month_date
            | none => false)
      if skip then filterByRange start_date end_date rest
      else (filterByRange start_date end_date rest).map (en :: ·)

/-- Lines 18-48, `fetch_available_dates`, with the already-decoded
catalog passed in for the network call.  Filtering runs only when
`start_date or end_date` is truthy. -/
def fetch_available_dates (available_data : List CatEntry)
    (start_date end_date : Option YM) : Except String (List CatEntry) :=
  if start_date.isSome || end_date.isSome then
    filterByRange start_date end_date available_data
  else
    .ok available_data

/-- Insertion into a sorted list of strings, for modelling Python's
`sorted` on "YYYY-MM" strings. -/
def insertSorted (x : String) : List String → List String
  | [] => [x]
  | y :: ys => if x ≤ y then x :: y :: ys else y :: insertSorted x ys

/-- Python `sorted(l)` for strings.  `sorted` is a stable sort but on a
linear order with antisymmetry the sorted permutation is unique, so
insertion sort computes the same list. -/
def pySorted : List String → List String
  | [] => []
  | x :: xs => insertSorted x (pySorted xs)

/-- Lines 211-224 of `main`: the output base path.
`dates_found = sorted([d['date'] for d in available_data])`,
then `data/stop_search_data/ssd_{dates_found[0]}-{dates_found[-1]}`
(`os.path.join` with `/`).  `main` only reaches this code with a
non-empty `available_data`, so the defaults are never used there. -/
def outputPath (available_data : List CatEntry) : String :=
  let dates_found := pySorted (available_data.map (fun d => d.date))
  let file_start_date := dates_found.headD ""
  let file_final_date := dates_found.getLastD ""
  "data" ++ "/" ++ "stop_search_data" ++ "/"
    ++ ("ssd_" ++ file_start_date ++ "-" ++ file_final_date)

/-- Lines 101-131, `save_data`: the list of paths returned, in the order
json, csv, parquet, restricted to the requested formats. -/
def save_data_paths (output_base : String)
    (save_json save_csv save_parquet : Bool) : List String :=
  (if save_json then [output_base ++ ".json"] else [])
    ++ (if save_csv then [output_base ++ ".csv"] else [])
    ++ (if save_parquet then [output_base ++ ".parquet"] else [])

/-- Observable outcome of one run of `main` past argument parsing. -/
inductive MainOutcome where
  | noData : MainOutcome
  | noRecords : MainOutcome
  | exported (output_path : String) (saved_files : List String) : MainOutcome

/-- Files written in a given outcome: the early exits write none. -/
def outcomeFiles : MainOutcome → List String
  | .exported _ fs => fs
  | _ => []

/-- Lines 196-229 of `main`: fetch the catalog (already decoded here),
exit early on an empty catalog ("No hay datos disponibles..."), fetch
records, exit early on an empty record list ("No se obtuvieron
registros"), otherwise export at the computed path. -/
def mainModel (catalog : List CatEntry) (oracle : Oracle)
    (start_date end_date : Option YM)
    (save_json save_csv save_parquet : Bool) :
    Except String MainOutcome :=
  match fetch_available_dates catalog start_date end_date with
  | .error m => .error m
  | .ok available_data =>
    if available_data.isEmpty then .ok .noData
    else
      let fetched := fetch_stops_data oracle available_data
      if fetched.1.isEmpty then .ok .noRecords
      else
        .ok (.exported (outputPath available_data)
              (save_data_paths (outputPath available_data)
                save_json save_csv save_parquet))

/-! ## Specification-side counting and ordering functions -/

/-- Whether a request outcome was a transport-level exception. -/
def isExn : ReqResult → Bool
  | .exn => true
  | .resp _ _ => false

/-- Records yielded by one request outcome: the body on a 200 status,
nothing otherwise. -/
def recordsOfResult : ReqResult → List Record
  | .resp 200 stops => stops
  | .resp _ _ => []
  | .exn => []

/-- The count the spec claims for `total_requests`: every (month, force)
pair of every entry with a non-empty force list, regardless of outcome. -/
def claimedRequests (data : List CatEntry) : Nat :=
  (data.map (fun e => if e.forces.isEmpty then 0 else e.forces.length)).sum

/-- The count the code actually keeps for `total_requests`: pairs whose
`requests.get` returned (any status); pairs whose call raised are not
counted, because the increment sits after the call. -/
def completedRequests (oracle : Oracle) (data : List CatEntry) : Nat :=
  (data.map (fun e =>
    if e.forces.isEmpty then 0
    else (e.forces.map (fun f => if isExn (oracle f e.date) then 0 else 1)).sum)).sum

/-- Claimed `total_records`: sum over requests answered with a success
status and a non-empty body of that body's length. -/
def claimedRecords (oracle : Oracle) (data : List CatEntry) : Nat :=
  (data.map (fun e =>
    (e.forces.map (fun f =>
      match oracle f e.date with
      | .resp 200 stops => if stops.isEmpty then 0 else stops.length
      | _ => 0)).sum)).sum

/-- The aggregate the spec describes: grouped by month in catalog order,
then by force in the entry's order, each group the tagged response
records in response order. -/
def groupedRecords (oracle : Oracle) (data : List CatEntry) : List Record :=
  (data.map (fun e =>
    (e.forces.map (fun f =>
      (recordsOfResult (oracle f e.date)).map (tagRecord e.date f))).flatten)).flatten

theorem fetchForce_eq (oracle : Oracle) (date f : String) :
    fetchForce oracle date f =
      ((recordsOfResult (oracle f date)).map (tagRecord date f),
       (recordsOfResult (oracle f date)).length,
       if isExn (oracle f date) then 0 else 1) := by
  rcases h : oracle f date with _ | ⟨status, stops⟩
  · simp [fetchForce, h, recordsOfResult, isExn]
  · by_cases hs : status = 200
    · subst hs
      rcases stops with _ | ⟨r, rs⟩ <;>
        simp [fetchForce, h, recordsOfResult, isExn, List.isEmpty]
    · have h200 : (status == 200) = false := by simp [hs]
      have hrec : recordsOfResult (ReqResult.resp status stops) = [] := by
        unfold recordsOfResult
        split
        · rename_i heq; cases heq; exact absurd rfl hs
        · rfl
        · rfl
      simp [fetchForce, h, h200, hrec, isExn]

theorem fetchForces_eq (oracle : Oracle) (date : String) (fs : List String) :
    fetchForces oracle date fs =
      ((fs.map (fun f => (recordsOfResult (oracle f date)).map (tagRecord date f))).flatten,
       (fs.map (fun f => (recordsOfResult (oracle f date)).length)).sum,
       (fs.map (fun f => if isExn (oracle f date) then 0 else 1)).sum) := by
  induction fs with
  | nil => rfl
  | cons f fs ih =>
    simp only [fetchForces, ih, fetchForce_eq, List.map_cons, List.flatten_cons,
      List.sum_cons, List.length_map]

/-! ## Dict update/lookup lemmas -/

theorem dictGet_dictSet_self (d : Record) (k : String) (v : J) :
    dictGet (dictSet d k v) k = some v := by
  induction d with
  | nil => simp [dictSet, dictGet, List.find?_cons]
  | cons p rest ih =>
    by_cases hp : (p.1 == k) = true
    · simp [dictSet, dictGet, hp, List.find?_cons]
    · simp only [dictSet, hp, Bool.false_eq_true, if_false]
      simpa [dictGet, List.find?_cons, hp] using ih

theorem dictGet_dictSet_ne (d : Record) (k k' : String) (v : J) (h : k' ≠ k) :
    dictGet (dictSet d k v) k' = dictGet d k' := by
  have hkk' : (k == k') = false := by simpa using Ne.symm h
  induction d with
  | nil => simp [dictSet, dictGet, List.find?_cons, hkk']
  | cons p rest ih =>
    by_cases hp : (p.1 == k) = true
    · have hp' : (p.1 == k') = false := by
        have : p.1 = k := by simpa using hp
        rw [this]; exact hkk'
      simp [dictSet, dictGet, hp, hp', List.find?_cons, hkk']
    · simp only [dictSet, hp, Bool.false_eq_true, if_false]
      by_cases hc : (p.1 == k') = true
      · simp [dictGet, List.find?_cons, hc]
      · simpa [dictGet, List.find?_cons, hc] using ih

theorem tagRecord_date (date force_id : String) (r : Record) :
    dictGet (tagRecord date force_id r) "date" = some (J.str date) := by
  unfold tagRecord
  rw [dictGet_dictSet_ne _ _ _ _ (by decide), dictGet_dictSet_self]

theorem tagRecord_force_id (date force_id : String) (r : Record) :
    dictGet (tagRecord date force_id r) "force_id" = some (J.str force_id) := by
  unfold tagRecord
  rw [dictGet_dictSet_self]

theorem tagRecord_frame (date force_id : String) (r : Record) (k : String)
    (h1 : k ≠ "date") (h2 : k ≠ "force_id") :
    dictGet (tagRecord date force_id r) k = dictGet r k := by
  unfold tagRecord
  rw [dictGet_dictSet_ne _ _ _ _ h2, dictGet_dictSet_ne _ _ _ _ h1]

/-! ## The fetch loop in closed form -/

theorem fetch_stops_data_eq (oracle : Oracle) (data : List CatEntry) :
    fetch_stops_data oracle data =
      (groupedRecords oracle data,
       (data.map (fun e =>
         (e.forces.map (fun f => (recordsOfResult (oracle f e.date)).length)).sum)).sum,
       (data.map (fun e =>
         (e.forces.map (fun f => if isExn (oracle f e.date) then 0 else 1)).sum)).sum) := by
  induction data with
  | nil => rfl
  | cons e es ih =>
    by_cases hf : e.forces.isEmpty
    · have : e.forces = [] := by simpa using hf
      simp [fetch_stops_data, hf, ih, groupedRecords, this]
    · simp only [fetch_stops_data, hf, if_false, Bool.false_eq_true, ih,
        fetchForces_eq, groupedRecords, List.map_cons, List.flatten_cons,
        List.sum_cons]

/-- An entry's contribution is `fetchForces` whether or not the
`if not forces: continue` guard fires, since `fetchForces` of an empty
list is already the neutral triple. -/
theorem entryFetch_eq (oracle : Oracle) (e : CatEntry) :
    (if e.forces.isEmpty then (([], 0, 0) : List Record × Nat × Nat)
     else fetchForces oracle e.date e.forces)
      = fetchForces oracle e.date e.forces := by
  by_cases h : e.forces.isEmpty
  · have he : e.forces = [] := by simpa using h
    simp [h, he, fetchForces]
  · simp [h]

/-! ## Claim C1: what `total_requests` counts -/

/-- C1 counterexample: with a single catalog entry with one force and a
request that raises a transport-level exception, the code leaves
`total_requests` at 0, while the claim counts the attempted pair, giving
1. (`total_requests += 1` sits after `requests.get`, so it never runs
when the call raises.) -/
theorem total_requests_claim_false :
    (fetch_stops_data (fun _ _ => ReqResult.exn)
        [⟨"2023-01", ["metropolitan"]⟩]).2.2
      ≠ claimedRequests [⟨"2023-01", ["metropolitan"]⟩] := by
  decide

/-- C1 amended: `total_requests` equals the number of (month, force)
pairs, over catalog entries with a non-empty force list, whose HTTP call
returned (with a success or non-success status); pairs whose call ended
in a transport-level exception are not counted, and entries whose force
list is empty count nothing. -/
theorem total_requests_eq (oracle : Oracle) (data : List CatEntry) :
    (fetch_stops_data oracle data).2.2 = completedRequests oracle data := by
  rw [fetch_stops_data_eq]
  show (data.map (fun e =>
      (e.forces.map (fun f => if isExn (oracle f e.date) then 0 else 1)).sum)).sum
    = completedRequests oracle data
  unfold completedRequests
  refine congrArg List.sum (List.map_congr_left (fun e _ => ?_))
  by_cases hf : e.forces.isEmpty
  · have he : e.forces = [] := by simpa using hf
    simp [hf, he]
  · simp [hf]

/-! ## Claim C5: what `total_records` counts -/

/-- Per-request record count in the claim's phrasing equals the length
of the records the request yields. -/
theorem recordsOfResult_length (r : ReqResult) :
    (recordsOfResult r).length
      = (match r with
         | ReqResult.resp 200 stops => if stops.isEmpty then 0 else stops.length
         | _ => 0) := by
  rcases r with _ | ⟨status, stops⟩
  · rfl
  · by_cases hs : status = 200
    · subst hs
      rcases stops with _ | ⟨a, as⟩ <;> simp [recordsOfResult]
    · have h1 : recordsOfResult (ReqResult.resp status stops) = [] := by
        unfold recordsOfResult
        split
        · rename_i heq; cases heq; exact absurd rfl hs
        · rfl
        · rfl
      have h2 : (match ReqResult.resp status stops with
         | ReqResult.resp 200 stops => if stops.isEmpty then 0 else stops.length
         | _ => 0) = 0 := by
        split
        · rename_i heq; cases heq; exact absurd rfl hs
        · rfl
      rw [h1, h2]
      rfl

/-- C5: `total_records` is the sum, over (month, force) requests that
returned status 200 with a non-empty body, of that body's length;
failures, non-success statuses and empty bodies contribute zero. -/
theorem total_records_eq (oracle : Oracle) (data : List CatEntry) :
    (fetch_stops_data oracle data).2.1 = claimedRecords oracle data := by
  rw [fetch_stops_data_eq]
  simp [claimedRecords, recordsOfResult_length]

/-! ## Claim C3: tagging and ordering of the aggregate -/

/-- C3: the aggregate is exactly the response records grouped by month
in catalog order, then by force in each entry's order, each group in
response order; and every tagged record carries `date` and `force_id`
fields equal to the producing (month, force) pair. -/
theorem records_tagged_and_grouped (oracle : Oracle) (data : List CatEntry) :
    (fetch_stops_data oracle data).1 = groupedRecords oracle data ∧
    ∀ date force_id r,
      dictGet (tagRecord date force_id r) "date" = some (J.str date) ∧
      dictGet (tagRecord date force_id r) "force_id" = some (J.str force_id) :=
  ⟨by rw [fetch_stops_data_eq],
   fun date force_id r =>
     ⟨tagRecord_date date force_id r, tagRecord_force_id date force_id r⟩⟩

/-! ## Claim C6: per-request failures are skipped, never propagated -/

/-- A failed request: transport-level exception or non-success status. -/
def reqFailed (r : ReqResult) : Prop :=
  r = .exn ∨ ∃ status stops, r = .resp status stops ∧ status ≠ 200

/-- A failed request contributes no records and no record count. -/
theorem fetchForce_failed (oracle : Oracle) (date f : String)
    (h : reqFailed (oracle f date)) :
    (fetchForce oracle date f).1 = [] ∧ (fetchForce oracle date f).2.1 = 0 := by
  rcases h with h | ⟨status, stops, h, hs⟩
  · simp [fetchForce, h]
  · have h200 : (status == 200) = false := by simp [hs]
    simp [fetchForce, h, h200]

/-- C6: if the request for pair (month, force) fails (non-success
status or transport-level exception), `fetch_stops_data` still returns
(nothing propagates), that pair contributes no records, and the rest of
the loop — the remaining forces of the month and the remaining months —
produces exactly what it would have produced anyway. -/
theorem failed_pair_skipped (oracle : Oracle) (date f : String)
    (fs : List String) (rest : List CatEntry)
    (h : reqFailed (oracle f date)) :
    (fetch_stops_data oracle (⟨date, f :: fs⟩ :: rest)).1
        = (fetch_stops_data oracle (⟨date, fs⟩ :: rest)).1 ∧
    (fetch_stops_data oracle (⟨date, f :: fs⟩ :: rest)).2.1
        = (fetch_stops_data oracle (⟨date, fs⟩ :: rest)).2.1 := by
  have hrec : recordsOfResult (oracle f date) = [] := by
    rcases h with h | ⟨status, stops, h, hs⟩
    · rw [h]; rfl
    · rw [h]
      unfold recordsOfResult
      split
      · rename_i heq; cases heq; exact absurd rfl hs
      · rfl
      · rfl
  constructor
  · simp [fetch_stops_data_eq, groupedRecords, hrec]
  · simp [fetch_stops_data_eq, hrec]

/-- Witness for C6 at a concrete failing input (status 404). -/
theorem failed_pair_skipped_witness :
    (fetch_stops_data (fun _ _ => ReqResult.resp 404 [])
        [⟨"2023-01", ["metropolitan"]⟩]).1
      = (fetch_stops_data (fun _ _ => ReqResult.resp 404 [])
          [⟨"2023-01", []⟩]).1 :=
  (failed_pair_skipped (fun _ _ => ReqResult.resp 404 []) "2023-01"
    "metropolitan" [] [] (Or.inr ⟨404, [], rfl, by decide⟩)).1

/-! ## Claims C4 and C10: the catalog date filter -/

/-- `datetime` non-strict comparison on year-month values. -/
def ymLe (a b : YM) : Bool :=
  a.1 < b.1 || (a.1 == b.1 && a.2 ≤ b.2)

/-- The claim's filter predicate: keep an entry iff its parsed month
satisfies `start <= month <= end`, an omitted bound constraining
nothing. -/
def keepEntry (start_date end_date : Option YM) (month : Option YM) : Bool :=
  match month with
  | none => false
  | some d =>
    (match start_date with | none => true | some sd => ymLe sd d) &&
    (match end_date with | none => true | some ed => ymLe d ed)

/-- The code's skip condition is the negation of the claim's keep
condition. -/
theorem skip_eq_not_keep (start_date end_date : Option YM) (d : YM) :
    ((match start_date with | some sd => ymLt d sd | none => false)
      || (match end_date with | some ed => ymLt ed d | none => false))
      = !(keepEntry start_date end_date (some d)) := by
  rcases start_date with _ | sd <;> rcases end_date with _ | ed <;>
    · rw [Bool.eq_iff_iff]
      simp [keepEntry, ymLt, ymLe]
      try omega

theorem filterByRange_eq (start_date end_date : Option YM)
    (catalog : List CatEntry)
    (h : ∀ en ∈ catalog, (parseYM en.date).isSome) :
    filterByRange start_date end_date catalog
      = .ok (catalog.filter
          (fun en => keepEntry start_date end_date (parseYM en.date))) := by
  induction catalog with
  | nil => rfl
  | cons en rest ih =>
    obtain ⟨d, hd⟩ := Option.isSome_iff_exists.mp (h en (List.mem_cons_self en rest))
    have hrest := ih (fun x hx => h x (List.mem_cons_of_mem en hx))
    simp only [filterByRange, hd, skip_eq_not_keep, List.filter_cons]
    by_cases hk : keepEntry start_date end_date (some d) = true
    · simp [hk, hrest, hd, Except.map]
    · simp only [Bool.not_eq_true] at hk
      simp [hk, hrest, hd]

/-- C4: with every catalog date parseable, `fetch_available_dates`
returns exactly the subsequence of entries whose month lies in the
inclusive `[start, end]` range, an omitted bound being unconstrained;
and with neither bound supplied the catalog is returned unchanged. -/
theorem fetch_available_dates_spec (catalog : List CatEntry)
    (start_date end_date : Option YM) :
    ((∀ en ∈ catalog, (parseYM en.date).isSome) →
      fetch_available_dates catalog start_date end_date
        = .ok (catalog.filter
            (fun en => keepEntry start_date end_date (parseYM en.date)))) ∧
    (start_date = none → end_date = none →
      fetch_available_dates catalog start_date end_date = .ok catalog) := by
  constructor
  · intro h
    rcases hs : start_date with _ | sd
    · rcases he : end_date with _ | ed
      · have hfilter : catalog.filter
            (fun en => keepEntry none none (parseYM en.date)) = catalog := by
          apply List.filter_eq_self.mpr
          intro en hen
          obtain ⟨d, hd⟩ := Option.isSome_iff_exists.mp (h en hen)
          simp [hd, keepEntry]
        rw [hfilter]
        rfl
      · subst hs he
        exact filterByRange_eq none (some ed) catalog h
    · subst hs
      rcases he : end_date with _ | ed <;>
      · subst he
        exact filterByRange_eq _ _ catalog h
  · intro hs he
    subst hs he
    rfl

/-- Witness for C4 on a concrete catalog and bounds. -/
theorem fetch_available_dates_spec_witness :
    fetch_available_dates
        [⟨"2023-01", ["met"]⟩, ⟨"2023-05", []⟩, ⟨"2024-01", ["btp"]⟩]
        (some (2023, 2)) (some (2023, 12))
      = .ok [⟨"2023-05", []⟩] := by
  have h := (fetch_available_dates_spec
      [⟨"2023-01", ["met"]⟩, ⟨"2023-05", []⟩, ⟨"2024-01", ["btp"]⟩]
      (some (2023, 2)) (some (2023, 12))).1 (by decide)
  rw [h]
  rfl

/-- C10: with no bound supplied, the filter is skipped entirely, so no
date string is ever parsed and a malformed date cannot raise; an error
can only arise when at least one bound is given. -/
theorem unfiltered_never_parses (catalog : List CatEntry)
    (start_date end_date : Option YM) :
    (start_date = none → end_date = none →
      fetch_available_dates catalog start_date end_date = .ok catalog) ∧
    (∀ msg, fetch_available_dates catalog start_date end_date = .error msg →
      start_date.isSome ∨ end_date.isSome) := by
  constructor
  · intro hs he
    subst hs he
    rfl
  · intro msg herr
    rcases start_date with _ | sd
    · rcases end_date with _ | ed
      · rw [show fetch_available_dates catalog none none = .ok catalog from rfl]
          at herr
        cases herr
      · exact Or.inr rfl
    · exact Or.inl rfl

/-- Witness for C10: a catalog whose date is garbage passes through an
unfiltered run untouched. -/
theorem unfiltered_never_parses_witness :
    fetch_available_dates [⟨"not-a-date", ["met"]⟩] none none
      = .ok [⟨"not-a-date", ["met"]⟩] :=
  (unfiltered_never_parses [⟨"not-a-date", ["met"]⟩] none none).1 rfl rfl

/-! ## Claim C2: output path naming -/

theorem mem_insertSorted (x : String) (l : List String) (y : String) :
    y ∈ insertSorted x l ↔ y = x ∨ y ∈ l := by
  induction l with
  | nil => simp [insertSorted]
  | cons a rest ih =>
    by_cases hx : x ≤ a
    · simp [insertSorted, hx, List.mem_cons]
    · simp only [insertSorted, hx, if_false, List.mem_cons, ih]
      tauto

theorem insertSorted_ne_nil (x : String) (l : List String) :
    insertSorted x l ≠ [] := by
  cases l with
  | nil => simp [insertSorted]
  | cons a rest =>
    unfold insertSorted
    split <;> simp

theorem sorted_insertSorted (x : String) (l : List String)
    (h : l.Sorted (· ≤ ·)) : (insertSorted x l).Sorted (· ≤ ·) := by
  induction l with
  | nil => simp [insertSorted]
  | cons a rest ih =>
    obtain ⟨ha, hrest⟩ := List.sorted_cons.mp h
    by_cases hx : x ≤ a
    · rw [show insertSorted x (a :: rest) = x :: a :: rest from by
        simp [insertSorted, hx]]
      refine List.sorted_cons.mpr ⟨?_, h⟩
      intro b hb
      rcases List.mem_cons.mp hb with rfl | hb2
      · exact hx
      · exact le_trans hx (ha b hb2)
    · rw [show insertSorted x (a :: rest) = a :: insertSorted x rest from by
        simp [insertSorted, hx]]
      refine List.sorted_cons.mpr ⟨?_, ih hrest⟩
      intro b hb
      rcases (mem_insertSorted x rest b).mp hb with rfl | hb2
      · exact le_of_not_le hx
      · exact ha b hb2

theorem sorted_pySorted (l : List String) : (pySorted l).Sorted (· ≤ ·) := by
  induction l with
  | nil => simp [pySorted]
  | cons a rest ih => exact sorted_insertSorted a (pySorted rest) ih

theorem mem_pySorted (l : List String) (y : String) :
    y ∈ pySorted l ↔ y ∈ l := by
  induction l with
  | nil => simp [pySorted]
  | cons a rest ih =>
    simp [pySorted, mem_insertSorted, ih]

theorem pySorted_ne_nil (l : List String) (h : l ≠ []) : pySorted l ≠ [] := by
  cases l with
  | nil => exact absurd rfl h
  | cons a rest => exact insertSorted_ne_nil a (pySorted rest)

theorem sorted_le_getLast (l : List String) (h : l.Sorted (· ≤ ·))
    (hne : l ≠ []) : ∀ b ∈ l, b ≤ l.getLast hne := by
  induction l with
  | nil => exact absurd rfl hne
  | cons a rest ih =>
    obtain ⟨ha, hrest⟩ := List.sorted_cons.mp h
    intro b hb
    rcases rest with _ | ⟨c, cs⟩
    · rcases List.mem_cons.mp hb with rfl | hb2
      · exact le_refl _
      · cases hb2
    · rw [List.getLast_cons (by simp)]
      rcases List.mem_cons.mp hb with rfl | hb2
      · exact ha _ (List.getLast_mem _)
      · exact ih hrest (by simp) b hb2

/-- C2: when `main` reaches the export stage (so `available_data` is
non-empty), the output base path is
`data/stop_search_data/ssd_<earliest>-<latest>` where earliest and
latest are the minimum and maximum of the date strings of all entries
that survived filtering — entries with empty force lists or without
records included, since the computation looks only at the dates. -/
theorem outputPath_spec (available_data : List CatEntry)
    (h : available_data ≠ []) :
    ∃ earliest latest,
      outputPath available_data
        = "data/stop_search_data/ssd_" ++ earliest ++ "-" ++ latest ∧
      earliest ∈ available_data.map (fun d => d.date) ∧
      latest ∈ available_data.map (fun d => d.date) ∧
      ∀ d ∈ available_data.map (fun d => d.date),
        earliest ≤ d ∧ d ≤ latest := by
  have hdsne : available_data.map (fun d => d.date) ≠ [] := by
    intro hc
    exact h (by simpa using hc)
  have hslne := pySorted_ne_nil _ hdsne
  obtain ⟨a, rest, hsl⟩ := List.exists_cons_of_ne_nil hslne
  have hsorted := sorted_pySorted (available_data.map (fun d => d.date))
  refine ⟨a, (pySorted (available_data.map (fun d => d.date))).getLast hslne,
    ?_, ?_, ?_, ?_⟩
  · have hheadD : (pySorted (available_data.map (fun d => d.date))).headD "" = a := by
      rw [hsl]
      rfl
    have hlastD : (pySorted (available_data.map (fun d => d.date))).getLastD ""
        = (pySorted (available_data.map (fun d => d.date))).getLast hslne := by
      rw [List.getLastD_eq_getLast?, List.getLast?_eq_getLast _ hslne]
      rfl
    simp only [outputPath]
    rw [hheadD, hlastD]
    generalize (pySorted (available_data.map (fun d => d.date))).getLast hslne = b
    rw [show ("data" ++ "/" ++ "stop_search_data" ++ "/" : String)
          = "data/stop_search_data/" from rfl]
    rw [show ("data/stop_search_data/ssd_" : String)
          = "data/stop_search_data/" ++ "ssd_" from rfl]
    rw [String.append_assoc, String.append_assoc, String.append_assoc,
      String.append_assoc, String.append_assoc]
  · rw [← mem_pySorted, hsl]
    exact List.mem_cons_self a rest
  · rw [← mem_pySorted]
    exact List.getLast_mem hslne
  · intro d hd
    have hdmem : d ∈ pySorted (available_data.map (fun d => d.date)) :=
      (mem_pySorted _ d).mpr hd
    constructor
    · rw [hsl] at hdmem hsorted
      rcases List.mem_cons.mp hdmem with rfl | hb2
      · exact le_refl _
      · exact (List.sorted_cons.mp hsorted).1 d hb2
    · exact sorted_le_getLast _ hsorted hslne d hdmem

/-- Witness for C2 on the spec's scenario: months 2023-01 (one force)
and 2023-02 (empty force list); the empty-force month still counts for
the name. -/
theorem outputPath_spec_witness :
    ∃ earliest latest,
      outputPath [⟨"2023-01", ["metropolitan"]⟩, ⟨"2023-02", []⟩]
        = "data/stop_search_data/ssd_" ++ earliest ++ "-" ++ latest ∧
      earliest ∈ List.map (fun d => d.date)
        ([⟨"2023-01", ["metropolitan"]⟩, ⟨"2023-02", []⟩] : List CatEntry) ∧
      latest ∈ List.map (fun d => d.date)
        ([⟨"2023-01", ["metropolitan"]⟩, ⟨"2023-02", []⟩] : List CatEntry) ∧
      ∀ d ∈ List.map (fun d => d.date)
        ([⟨"2023-01", ["metropolitan"]⟩, ⟨"2023-02", []⟩] : List CatEntry),
        earliest ≤ d ∧ d ≤ latest :=
  outputPath_spec [⟨"2023-01", ["metropolitan"]⟩, ⟨"2023-02", []⟩] (by simp)

/-! ## Claim C9: tagging is a two-key frame update -/

/-- C9: tagging sets exactly the keys `date` and `force_id` — an
existing value under either key is overwritten, every other key's value
is untouched. -/
theorem tagRecord_frame_spec (date force_id : String) (r : Record) :
    dictGet (tagRecord date force_id r) "date" = some (J.str date) ∧
    dictGet (tagRecord date force_id r) "force_id" = some (J.str force_id) ∧
    ∀ k, k ≠ "date" → k ≠ "force_id" →
      dictGet (tagRecord date force_id r) k = dictGet r k :=
  ⟨tagRecord_date date force_id r, tagRecord_force_id date force_id r,
   fun k h1 h2 => tagRecord_frame date force_id r k h1 h2⟩

/-- Witness for C9: a record with a pre-existing `date` field keeps its
other field intact (and the theorem's first component shows `date`
getting overwritten). -/
theorem tagRecord_frame_spec_witness :
    dictGet (tagRecord "2023-01" "metropolitan"
        [("age_range", J.str "18-24"), ("date", J.str "junk")]) "age_range"
      = dictGet [("age_range", J.str "18-24"), ("date", J.str "junk")]
          "age_range" :=
  (tagRecord_frame_spec "2023-01" "metropolitan"
    [("age_range", J.str "18-24"), ("date", J.str "junk")]).2.2
    "age_range" (by decide) (by decide)

/-! ## Claim C7: early exits of `main` -/

/-- C7: when the filtered catalog is empty, or fetching yields no
records, `main` stops before the export stage with an explanatory
outcome and writes no files. -/
theorem main_early_exit (catalog : List CatEntry) (oracle : Oracle)
    (start_date end_date : Option YM) (sj sc sp : Bool)
    (available_data : List CatEntry)
    (hav : fetch_available_dates catalog start_date end_date
      = .ok available_data)
    (h : available_data = []
      ∨ (fetch_stops_data oracle available_data).1 = []) :
    ∃ o, mainModel catalog oracle start_date end_date sj sc sp = .ok o ∧
      (o = .noData ∨ o = .noRecords) ∧ outcomeFiles o = [] := by
  unfold mainModel
  rw [hav]
  rcases h with h | h
  · subst h
    exact ⟨.noData, rfl, Or.inl rfl, rfl⟩
  · by_cases hemp : available_data.isEmpty
    · refine ⟨.noData, ?_, Or.inl rfl, rfl⟩
      simp [hemp]
    · refine ⟨.noRecords, ?_, Or.inr rfl, rfl⟩
      have hrec : (fetch_stops_data oracle available_data).1.isEmpty := by
        simp [h]
      simp [hemp, hrec]

/-- Witness for C7: every force request succeeds with an empty body, so
the run ends in `noRecords` with no files. -/
theorem main_early_exit_witness :
    ∃ o, mainModel [⟨"2023-01", ["met"]⟩] (fun _ _ => ReqResult.resp 200 [])
        none none true true true = .ok o ∧
      (o = .noData ∨ o = .noRecords) ∧ outcomeFiles o = [] :=
  main_early_exit [⟨"2023-01", ["met"]⟩] (fun _ _ => ReqResult.resp 200 [])
    none none true true true [⟨"2023-01", ["met"]⟩] rfl (Or.inr rfl)

/-! ## Claim C8: JSON serialization (`json.dump(..., indent=2,
ensure_ascii=False)`) and deserialization (`json.load`)

The printer below models CPython's `json.dump` with `indent=2` and
`ensure_ascii=False` on the value domain of `J`; the parser models
`json.load`.  Escaping is modelled for `"` and `\`; strings containing
control characters (which `json.dump` would `\uXXXX`-escape) are
excluded by the well-formedness predicate `jwf`. -/

/-- JSON whitespace. -/
def isWsChar (c : Char) : Bool :=
  c = ' ' || c = '\n' || c = '\t' || c = '\r'

/-- `n` spaces of indentation. -/
def nspaces (n : Nat) : List Char := List.replicate n ' '

/-- Decimal digits of `n`, most significant first (Python `repr` of a
non-negative int). -/
def natChars (n : Nat) : List Char :=
  if _h : n < 10 then [Nat.digitChar n]
  else natChars (n / 10) ++ [Nat.digitChar (n % 10)]
decreasing_by exact Nat.div_lt_self (by omega) (by omega)

/-- Python `repr` of an int. -/
def intChars (n : Int) : List Char :=
  if n < 0 then '-' :: natChars (-n).toNat else natChars n.toNat

/-- One string character as emitted inside a JSON string literal. -/
def escChar (c : Char) : List Char :=
  if c = '"' || c = '\\' then ['\\', c] else [c]

/-- The body of a JSON string literal. -/
def escString (s : String) : List Char := (s.data.map escChar).flatten

mutual

/-- `json.dump` with `indent=2`, at nesting depth `lvl`. -/
def printJ (lvl : Nat) : J → List Char
  | .null => "null".data
  | .bool true => "true".data
  | .bool false => "false".data
  | .int n => intChars n
  | .str s => '"' :: (escString s ++ ['"'])
  | .arr [] => ['[', ']']
  | .arr (v :: vs) =>
    '[' :: '\n' :: (printItems (lvl + 1) v vs
      ++ '\n' :: (nspaces (2 * lvl) ++ [']']))
  | .obj [] => ['\x7b', '\x7d']
  | .obj (kv :: kvs) =>
    '\x7b' :: '\n' :: (printFields (lvl + 1) kv kvs
      ++ '\n' :: (nspaces (2 * lvl) ++ ['\x7d']))
termination_by v => sizeOf v
decreasing_by all_goals (simp_wf; try omega)

/-- The comma-newline separated items of a non-empty array, each
indented by `2 * lvl`. -/
def printItems (lvl : Nat) (v : J) (vs : List J) : List Char :=
  match vs with
  | [] => nspaces (2 * lvl) ++ printJ lvl v
  | w :: ws =>
    nspaces (2 * lvl) ++ printJ lvl v ++ ',' :: '\n' :: printItems lvl w ws
termination_by 1 + sizeOf v + sizeOf vs
decreasing_by all_goals (simp_wf; try omega)

/-- The `"key": value` members of a non-empty object. -/
def printFields (lvl : Nat) (kv : String × J) (kvs : List (String × J)) :
    List Char :=
  match kv, kvs with
  | (k, v), [] =>
    nspaces (2 * lvl)
      ++ '"' :: (escString k ++ '"' :: ':' :: ' ' :: printJ lvl v)
  | (k, v), kw :: kws =>
    nspaces (2 * lvl)
      ++ '"' :: (escString k ++ '"' :: ':' :: ' ' :: printJ lvl v)
      ++ ',' :: '\n' :: printFields lvl kw kws
termination_by 1 + sizeOf kv + sizeOf kvs
decreasing_by all_goals (simp_wf; try omega)

end

mutual

/-- Values serializable exactly by the model: every string (including
object keys) is free of control characters. -/
def jwf : J → Bool
  | .null => true
  | .bool _ => true
  | .int _ => true
  | .str s => s.data.all (fun c => 32 ≤ c.toNat)
  | .arr vs => jwfItems vs
  | .obj kvs => jwfFields kvs

def jwfItems : List J → Bool
  | [] => true
  | v :: vs => jwf v && jwfItems vs

def jwfFields : List (String × J) → Bool
  | [] => true
  | (k, v) :: kvs =>
    k.data.all (fun c => 32 ≤ c.toNat) && jwf v && jwfFields kvs

end

mutual

/-- Parser fuel sufficient for a value. -/
def fsize : J → Nat
  | .null => 1
  | .bool _ => 1
  | .int _ => 1
  | .str _ => 1
  | .arr [] => 1
  | .arr (v :: vs) => 1 + fsizeItems v vs
  | .obj [] => 1
  | .obj (kv :: kvs) => 1 + fsizeFields kv kvs
termination_by v => sizeOf v
decreasing_by all_goals (simp_wf; try omega)

def fsizeItems (v : J) (vs : List J) : Nat :=
  match vs with
  | [] => 1 + fsize v
  | w :: ws => 1 + fsize v + fsizeItems w ws
termination_by 1 + sizeOf v + sizeOf vs
decreasing_by all_goals (simp_wf; try omega)

def fsizeFields (kv : String × J) (kvs : List (String × J)) : Nat :=
  match kv, kvs with
  | (_, v), [] => 1 + fsize v
  | (_, v), kw :: kws => 1 + fsize v + fsizeFields kw kws
termination_by 1 + sizeOf kv + sizeOf kvs
decreasing_by all_goals (simp_wf; try omega)

end

/-- Strip leading JSON whitespace. -/
def skipWs : List Char → List Char
  | [] => []
  | c :: rest => if isWsChar c then skipWs rest else c :: rest

/-- Parse a JSON string body up to its closing quote (escapes `\"` and
`\\`; raw control characters are rejected, as `json.load` does in
strict mode). -/
def parseStr : List Char → Option (List Char × List Char)
  | [] => none
  | c :: rest =>
    if c = '"' then some ([], rest)
    else if c = '\\' then
      match rest with
      | [] => none
      | e :: rest2 =>
        if e = '"' || e = '\\' then
          (parseStr rest2).map (fun p => (e :: p.1, p.2))
        else none
    else if c.toNat < 32 then none
    else (parseStr rest).map (fun p => (c :: p.1, p.2))

/-- Consume a maximal run of decimal digits. -/
def parseDigits (acc : Nat) : List Char → Nat × List Char
  | [] => (acc, [])
  | c :: rest =>
    if c.isDigit then parseDigits (acc * 10 + (c.toNat - 48)) rest
    else (acc, c :: rest)

mutual

/-- Parse one JSON value: a fuel-indexed model of `json.load`, which
dispatches on the first non-whitespace character like CPython's scanner
does. -/
def parseVal : Nat → List Char → Option (J × List Char)
  | 0, _ => none
  | fuel + 1, cs =>
    match skipWs cs with
    | [] => none
    | c :: rest =>
      if c = '"' then
        (parseStr rest).map (fun p => (J.str (String.mk p.1), p.2))
      else if c = '[' then
        match skipWs rest with
        | [] => none
        | c2 :: rest2 =>
          if c2 = ']' then some (.arr [], rest2)
          else (parseElems fuel (c2 :: rest2)).map (fun p => (.arr p.1, p.2))
      else if c = '\x7b' then
        match skipWs rest with
        | [] => none
        | c2 :: rest2 =>
          if c2 = '\x7d' then some (.obj [], rest2)
          else (parseFields fuel (c2 :: rest2)).map (fun p => (.obj p.1, p.2))
      else if c = 'n' then
        match rest with
        | 'u' :: 'l' :: 'l' :: rest2 => some (.null, rest2)
        | _ => none
      else if c = 't' then
        match rest with
        | 'r' :: 'u' :: 'e' :: rest2 => some (.bool true, rest2)
        | _ => none
      else if c = 'f' then
        match rest with
        | 'a' :: 'l' :: 's' :: 'e' :: rest2 => some (.bool false, rest2)
        | _ => none
      else if c = '-' then
        match rest with
        | d :: _ =>
          if d.isDigit then
            let p := parseDigits 0 rest
            some (.int (-(p.1 : Int)), p.2)
          else none
        | [] => none
      else if c.isDigit then
        let p := parseDigits 0 (c :: rest)
        some (.int (p.1 : Int), p.2)
      else none

/-- Parse the remaining comma-separated elements of an array, up to the
closing bracket. -/
def parseElems : Nat → List Char → Option (List J × List Char)
  | 0, _ => none
  | fuel + 1, cs =>
    match parseVal fuel cs with
    | none => none
    | some (v, rest) =>
      match skipWs rest with
      | [] => none
      | c :: rest2 =>
        if c = ',' then (parseElems fuel rest2).map (fun p => (v :: p.1, p.2))
        else if c = ']' then some ([v], rest2)
        else none

/-- Parse the remaining `"key": value` members of an object, up to the
closing brace. -/
def parseFields : Nat → List Char → Option (List (String × J) × List Char)
  | 0, _ => none
  | fuel + 1, cs =>
    match skipWs cs with
    | [] => none
    | c :: rest =>
      if c = '"' then
        match parseStr rest with
        | none => none
        | some (k, rest2) =>
          match skipWs rest2 with
          | [] => none
          | c2 :: rest3 =>
            if c2 = ':' then
              match parseVal fuel rest3 with
              | none => none
              | some (v, rest4) =>
                match skipWs rest4 with
                | [] => none
                | c3 :: rest5 =>
                  if c3 = ',' then
                    (parseFields fuel rest5).map
                      (fun p => ((String.mk k, v) :: p.1, p.2))
                  else if c3 = '\x7d' then some ([(String.mk k, v)], rest5)
                  else none
            else none
      else none

end

/-- The exact text `json.dump(v, f, indent=2, ensure_ascii=False)`
writes. -/
def pyDumps (v : J) : String := String.mk (printJ 0 v)

/-- Model of `json.load`: parse one value, allow trailing whitespace
only. -/
def pyLoads (s : String) : Option J :=
  match parseVal (s.data.length + 1) s.data with
  | some (v, rest) => if (skipWs rest).isEmpty then some v else none
  | none => none

/-- Lines 109-114 of `save_data`, json branch: the path and full text
written to `<output_base>.json`. -/
def save_data_jsonFile (all_records : List Record) (output_base : String) :
    String × String :=
  (output_base ++ ".json", pyDumps (J.arr (all_records.map J.obj)))

/-! ### Whitespace lemmas -/

theorem skipWs_cons_ws (c : Char) (cs : List Char) (h : isWsChar c = true) :
    skipWs (c :: cs) = skipWs cs := by
  simp [skipWs, h]

theorem skipWs_cons_not_ws (c : Char) (cs : List Char)
    (h : isWsChar c = false) : skipWs (c :: cs) = c :: cs := by
  simp [skipWs, h]

theorem skipWs_nspaces (n : Nat) (cs : List Char) :
    skipWs (nspaces n ++ cs) = skipWs cs := by
  induction n with
  | zero => rfl
  | succ k ih =>
    rw [show nspaces (k + 1) = ' ' :: nspaces k from by
      simp [nspaces, List.replicate_succ]]
    rw [List.cons_append, skipWs_cons_ws _ _ (by decide), ih]

theorem skipWs_idem (cs : List Char) : skipWs (skipWs cs) = skipWs cs := by
  induction cs with
  | nil => rfl
  | cons c rest ih =>
    by_cases h : isWsChar c = true
    · rw [skipWs_cons_ws _ _ h, ih]
    · have h' : isWsChar c = false := by simpa using h
      rw [skipWs_cons_not_ws _ _ h', skipWs_cons_not_ws _ _ h']

theorem parseVal_skipWs (fuel : Nat) (cs : List Char) :
    parseVal fuel (skipWs cs) = parseVal fuel cs := by
  cases fuel with
  | zero => rfl
  | succ k => simp only [parseVal, skipWs_idem]

theorem parseElems_skipWs (fuel : Nat) (cs : List Char) :
    parseElems fuel (skipWs cs) = parseElems fuel cs := by
  cases fuel with
  | zero => rfl
  | succ k => simp only [parseElems, parseVal_skipWs]

theorem parseFields_skipWs (fuel : Nat) (cs : List Char) :
    parseFields fuel (skipWs cs) = parseFields fuel cs := by
  cases fuel with
  | zero => rfl
  | succ k => simp only [parseFields, skipWs_idem]

theorem parseVal_cons_ws (fuel : Nat) (c : Char) (cs : List Char)
    (h : isWsChar c = true) : parseVal fuel (c :: cs) = parseVal fuel cs := by
  rw [← parseVal_skipWs fuel (c :: cs), skipWs_cons_ws _ _ h, parseVal_skipWs]

theorem parseVal_nspaces (fuel n : Nat) (cs : List Char) :
    parseVal fuel (nspaces n ++ cs) = parseVal fuel cs := by
  rw [← parseVal_skipWs fuel (nspaces n ++ cs), skipWs_nspaces, parseVal_skipWs]

theorem parseElems_cons_ws (fuel : Nat) (c : Char) (cs : List Char)
    (h : isWsChar c = true) :
    parseElems fuel (c :: cs) = parseElems fuel cs := by
  rw [← parseElems_skipWs fuel (c :: cs), skipWs_cons_ws _ _ h,
    parseElems_skipWs]

theorem parseFields_cons_ws (fuel : Nat) (c : Char) (cs : List Char)
    (h : isWsChar c = true) :
    parseFields fuel (c :: cs) = parseFields fuel cs := by
  rw [← parseFields_skipWs fuel (c :: cs), skipWs_cons_ws _ _ h,
    parseFields_skipWs]

/-! ### Digit and number lemmas -/

/-- The remaining input does not begin with a digit (so a maximal digit
run ended). -/
def noDigitHead : List Char → Bool
  | [] => true
  | c :: _ => !c.isDigit

theorem digitChar_isDigit (d : Nat) (h : d < 10) :
    (Nat.digitChar d).isDigit = true := by
  interval_cases d <;> decide

theorem digitChar_toNat (d : Nat) (h : d < 10) :
    (Nat.digitChar d).toNat = 48 + d := by
  interval_cases d <;> decide

theorem isDigit_facts (c : Char) (h : c.isDigit = true) :
    isWsChar c = false ∧ c ≠ '"' ∧ c ≠ '[' ∧ c ≠ '\x7b' ∧ c ≠ 'n'
      ∧ c ≠ 't' ∧ c ≠ 'f' ∧ c ≠ '-' ∧ c ≠ ']' ∧ c ≠ '\x7d' ∧ c ≠ ','
      ∧ c ≠ ':' := by
  have hb : 48 ≤ c.toNat ∧ c.toNat ≤ 57 := by
    simp only [Char.isDigit, Bool.and_eq_true, decide_eq_true_eq] at h
    exact ⟨h.1, h.2⟩
  refine ⟨?_, ?_, ?_, ?_, ?_, ?_, ?_, ?_, ?_, ?_, ?_, ?_⟩
  · cases hw : isWsChar c
    · rfl
    · exfalso
      simp only [isWsChar, Bool.or_eq_true, decide_eq_true_eq] at hw
      rcases hw with ((rfl | rfl) | rfl) | rfl <;> (revert hb; decide)
  all_goals (intro hc; subst hc; revert hb; decide)

theorem natChars_cons (n : Nat) :
    ∃ d ds, natChars n = d :: ds ∧ d.isDigit = true := by
  induction n using Nat.strong_induction_on with
  | _ n ih =>
    rw [natChars]
    by_cases h : n < 10
    · exact ⟨Nat.digitChar n, [], by simp [h], digitChar_isDigit n h⟩
    · obtain ⟨d, ds, hds, hd⟩ := ih (n / 10) (Nat.div_lt_self (by omega) (by omega))
      exact ⟨d, ds ++ [Nat.digitChar (n % 10)], by simp [h, hds], hd⟩

/-- `10 ^ (number of digits of n)`. -/
def pow10len (n : Nat) : Nat :=
  if _h : n < 10 then 10 else 10 * pow10len (n / 10)
decreasing_by exact Nat.div_lt_self (by omega) (by omega)

theorem parseDigits_stop (acc : Nat) (rest : List Char)
    (h : noDigitHead rest = true) : parseDigits acc rest = (acc, rest) := by
  cases rest with
  | nil => rfl
  | cons c cs =>
    have hc : c.isDigit = false := by simpa [noDigitHead] using h
    simp [parseDigits, hc]

theorem parseDigits_append (n : Nat) :
    ∀ acc rest, parseDigits acc (natChars n ++ rest)
      = parseDigits (acc * pow10len n + n) rest := by
  induction n using Nat.strong_induction_on with
  | _ n ih =>
    intro acc rest
    rw [natChars, pow10len]
    by_cases h : n < 10
    · simp only [h, dif_pos, List.cons_append, List.nil_append]
      rw [show parseDigits acc (Nat.digitChar n :: rest)
            = parseDigits (acc * 10 + ((Nat.digitChar n).toNat - 48)) rest from by
          simp [parseDigits, digitChar_isDigit n h]]
      rw [digitChar_toNat n h]
      congr 1
      omega
    · simp only [h, dif_neg, not_false_iff, List.append_assoc,
        List.cons_append, List.nil_append]
      rw [ih (n / 10) (Nat.div_lt_self (by omega) (by omega))]
      have h10 : (Nat.digitChar (n % 10)).isDigit = true :=
        digitChar_isDigit _ (Nat.mod_lt _ (by omega))
      rw [show parseDigits (acc * pow10len (n / 10) + n / 10)
            (Nat.digitChar (n % 10) :: rest)
          = parseDigits ((acc * pow10len (n / 10) + n / 10) * 10
              + ((Nat.digitChar (n % 10)).toNat - 48)) rest from by
          simp [parseDigits, h10]]
      rw [digitChar_toNat _ (Nat.mod_lt _ (by omega))]
      congr 1
      have := Nat.div_add_mod n 10
      ring_nf
      omega

theorem parseDigits_natChars (n : Nat) (rest : List Char)
    (h : noDigitHead rest = true) :
    parseDigits 0 (natChars n ++ rest) = (n, rest) := by
  rw [parseDigits_append, Nat.zero_mul, Nat.zero_add, parseDigits_stop _ _ h]

/-! ### String body round trip -/

theorem parseStr_escString :
    ∀ (cs : List Char), (∀ c ∈ cs, 32 ≤ c.toNat) → ∀ rest,
      parseStr ((cs.map escChar).flatten ++ '"' :: rest) = some (cs, rest) := by
  intro cs
  induction cs with
  | nil =>
    intro _ rest
    rw [parseStr.eq_def]
    simp
  | cons c cs' ih =>
    intro hok rest
    have hge : 32 ≤ c.toNat := hok c (List.mem_cons_self _ _)
    have ih' := ih (fun x hx => hok x (List.mem_cons_of_mem _ hx)) rest
    by_cases h1 : c = '"'
    · subst h1
      rw [show (('"' :: cs').map escChar).flatten ++ '"' :: rest
            = '\\' :: '"' :: ((cs'.map escChar).flatten ++ '"' :: rest) from by
          simp [escChar]]
      rw [show parseStr ('\\' :: '"' :: ((cs'.map escChar).flatten ++ '"' :: rest))
            = (parseStr ((cs'.map escChar).flatten ++ '"' :: rest)).map
                (fun p => ('"' :: p.1, p.2)) from by
          rw [parseStr.eq_def]
          simp]
      rw [ih']
      rfl
    · by_cases h2 : c = '\\'
      · subst h2
        rw [show (('\\' :: cs').map escChar).flatten ++ '"' :: rest
              = '\\' :: '\\' :: ((cs'.map escChar).flatten ++ '"' :: rest) from by
            simp [escChar]]
        rw [show parseStr ('\\' :: '\\' :: ((cs'.map escChar).flatten ++ '"' :: rest))
              = (parseStr ((cs'.map escChar).flatten ++ '"' :: rest)).map
                  (fun p => ('\\' :: p.1, p.2)) from by
            rw [parseStr.eq_def]
            simp]
        rw [ih']
        rfl
      · rw [show ((c :: cs').map escChar).flatten ++ '"' :: rest
              = c :: ((cs'.map escChar).flatten ++ '"' :: rest) from by
            simp [escChar, h1, h2]]
        rw [show parseStr (c :: ((cs'.map escChar).flatten ++ '"' :: rest))
              = (parseStr ((cs'.map escChar).flatten ++ '"' :: rest)).map
                  (fun p => (c :: p.1, p.2)) from by
            rw [parseStr.eq_def]
            simp [h1, h2, show ¬(c.toNat < 32) from by omega]]
        rw [ih']
        rfl

/-! ### First character of a printed value -/

theorem printJ_head (lvl : Nat) (v : J) :
    ∃ c cs, printJ lvl v = c :: cs ∧ isWsChar c = false
      ∧ c ≠ ']' ∧ c ≠ '\x7d' := by
  cases v with
  | null =>
    exact ⟨'n', ['u', 'l', 'l'], by simp [printJ], by decide, by decide,
      by decide⟩
  | bool b =>
    cases b
    · exact ⟨'f', ['a', 'l', 's', 'e'], by simp [printJ], by decide,
        by decide, by decide⟩
    · exact ⟨'t', ['r', 'u', 'e'], by simp [printJ], by decide, by decide,
        by decide⟩
  | int n =>
    by_cases hn : n < 0
    · exact ⟨'-', natChars (-n).toNat, by simp [printJ, intChars, hn],
        by decide, by decide, by decide⟩
    · obtain ⟨d, ds, hds, hd⟩ := natChars_cons n.toNat
      obtain ⟨hw, _, _, _, _, _, _, _, hbr, hbc, _, _⟩ := isDigit_facts d hd
      exact ⟨d, ds, by simp [printJ, intChars, hn, hds], hw, hbr, hbc⟩
  | str s =>
    exact ⟨'"', escString s ++ ['"'], by simp [printJ], by decide, by decide,
      by decide⟩
  | arr vs =>
    cases vs with
    | nil =>
      exact ⟨'[', [']'], by simp [printJ], by decide, by decide, by decide⟩
    | cons v vs =>
      exact ⟨'[', '\n' :: (printItems (lvl + 1) v vs
          ++ '\n' :: (nspaces (2 * lvl) ++ [']'])),
        by simp [printJ], by decide, by decide, by decide⟩
  | obj kvs =>
    cases kvs with
    | nil =>
      exact ⟨'\x7b', ['\x7d'], by simp [printJ], by decide, by decide,
        by decide⟩
    | cons kv kvs =>
      exact ⟨'\x7b', '\n' :: (printFields (lvl + 1) kv kvs
          ++ '\n' :: (nspaces (2 * lvl) ++ ['\x7d'])),
        by simp [printJ], by decide, by decide, by decide⟩

/-! ### Size and head-shape lemmas for the printer -/

theorem fsize_pos (v : J) : 1 ≤ fsize v := by
  cases v with
  | null => simp [fsize]
  | bool b => simp [fsize]
  | int n => simp [fsize]
  | str s => simp [fsize]
  | arr vs => cases vs <;> simp [fsize]
  | obj kvs => cases kvs <;> simp [fsize]

theorem fsizeItems_pos (v : J) (vs : List J) : 1 ≤ fsizeItems v vs := by
  cases vs <;> simp [fsizeItems] <;> omega

theorem fsizeFields_pos (kv : String × J) (kvs : List (String × J)) :
    1 ≤ fsizeFields kv kvs := by
  obtain ⟨k, v⟩ := kv
  cases kvs <;> simp [fsizeFields] <;> omega

theorem skipWs_printItems_head (lvl : Nat) (v : J) (vs : List J)
    (X : List Char) :
    ∃ c2 rest2, skipWs (printItems lvl v vs ++ X) = c2 :: rest2
      ∧ c2 ≠ ']' ∧ c2 ≠ '\x7d'
      ∧ c2 :: rest2 = skipWs (printItems lvl v vs ++ X) := by
  obtain ⟨c, cs, hpr, hws, hbr, hbc⟩ := printJ_head lvl v
  have key : ∀ Z : List Char,
      skipWs (nspaces (2 * lvl) ++ (printJ lvl v ++ Z)) = c :: (cs ++ Z) := by
    intro Z
    rw [skipWs_nspaces, hpr, List.cons_append, skipWs_cons_not_ws _ _ hws]
  cases vs with
  | nil =>
    have hshape : printItems lvl v [] ++ X
        = nspaces (2 * lvl) ++ (printJ lvl v ++ X) := by
      simp [printItems]
    exact ⟨c, cs ++ X, by rw [hshape, key], hbr, hbc, by rw [hshape, key]⟩
  | cons w ws =>
    have hshape : printItems lvl v (w :: ws) ++ X
        = nspaces (2 * lvl)
          ++ (printJ lvl v ++ (',' :: ('\n' :: (printItems lvl w ws ++ X)))) := by
      simp [printItems]
    exact ⟨c, cs ++ (',' :: ('\n' :: (printItems lvl w ws ++ X))),
      by rw [hshape, key], hbr, hbc, by rw [hshape, key]⟩

theorem skipWs_printFields_head (lvl : Nat) (kv : String × J)
    (kvs : List (String × J)) (X : List Char) :
    ∃ rest2, skipWs (printFields lvl kv kvs ++ X) = '"' :: rest2 := by
  obtain ⟨k, v⟩ := kv
  have key : ∀ Z : List Char,
      skipWs (nspaces (2 * lvl) ++ ('"' :: Z)) = '"' :: Z := by
    intro Z
    rw [skipWs_nspaces, skipWs_cons_not_ws _ _ (by decide)]
  cases kvs with
  | nil =>
    have hshape : printFields lvl (k, v) [] ++ X
        = nspaces (2 * lvl)
          ++ ('"' :: ((escString k ++ '"' :: ':' :: ' ' :: printJ lvl v) ++ X)) := by
      simp [printFields]
    exact ⟨(escString k ++ '"' :: ':' :: ' ' :: printJ lvl v) ++ X,
      by rw [hshape, key]⟩
  | cons kw kws =>
    have hshape : printFields lvl (k, v) (kw :: kws) ++ X
        = nspaces (2 * lvl)
          ++ ('"' :: ((escString k ++ '"' :: ':' :: ' ' :: printJ lvl v)
            ++ (',' :: ('\n' :: (printFields lvl kw kws ++ X))))) := by
      simp [printFields]
    exact ⟨(escString k ++ '"' :: ':' :: ' ' :: printJ lvl v)
        ++ (',' :: ('\n' :: (printFields lvl kw kws ++ X))),
      by rw [hshape, key]⟩

/-! ### Printed length bounds the needed fuel -/

theorem fsize_le_len_aux : ∀ N : Nat,
    (∀ v : J, sizeOf v < N → ∀ lvl, fsize v ≤ (printJ lvl v).length) ∧
    (∀ (v : J) (vs : List J), sizeOf v + sizeOf vs < N → ∀ lvl,
      fsizeItems v vs ≤ (printItems lvl v vs).length + 1) ∧
    (∀ (kv : String × J) (kvs : List (String × J)),
      sizeOf kv + sizeOf kvs < N → ∀ lvl,
      fsizeFields kv kvs ≤ (printFields lvl kv kvs).length + 1) := by
  intro N
  induction N with
  | zero =>
    exact ⟨fun v h => absurd h (Nat.not_lt_zero _),
      fun v vs h => absurd h (Nat.not_lt_zero _),
      fun kv kvs h => absurd h (Nat.not_lt_zero _)⟩
  | succ N ih =>
    obtain ⟨ihV, ihI, ihF⟩ := ih
    refine ⟨?_, ?_, ?_⟩
    · intro v hv lvl
      cases v with
      | null => simp [printJ, fsize]
      | bool b => cases b <;> simp [printJ, fsize]
      | int n =>
        by_cases hn : n < 0
        · obtain ⟨d, ds, hds, _⟩ := natChars_cons (-n).toNat
          simp [printJ, fsize, intChars, hn, hds]
        · obtain ⟨d, ds, hds, _⟩ := natChars_cons n.toNat
          simp [printJ, fsize, intChars, hn, hds]
      | str s => simp [printJ, fsize]
      | arr vs =>
        cases vs with
        | nil => simp [printJ, fsize]
        | cons v vs =>
          have hsz : sizeOf v + sizeOf vs < N := by
            simp at hv
            omega
          have hI := ihI v vs hsz (lvl + 1)
          simp only [printJ, fsize, List.length_cons, List.length_append,
            nspaces, List.length_replicate]
          omega
      | obj kvs =>
        cases kvs with
        | nil => simp [printJ, fsize]
        | cons kv kvs =>
          have hsz : sizeOf kv + sizeOf kvs < N := by
            simp at hv
            omega
          have hF := ihF kv kvs hsz (lvl + 1)
          simp only [printJ, fsize, List.length_cons, List.length_append,
            nspaces, List.length_replicate]
          omega
    · intro v vs hsz lvl
      cases vs with
      | nil =>
        have hV := ihV v (by simp at hsz; omega) lvl
        simp only [printItems, fsizeItems, List.length_append, nspaces,
          List.length_replicate]
        omega
      | cons w ws =>
        have hV := ihV v (by simp at hsz; omega) lvl
        have hI := ihI w ws (by simp at hsz; omega) lvl
        simp only [printItems, fsizeItems, List.length_append, nspaces,
          List.length_replicate, List.length_cons]
        omega
    · intro kv kvs hsz lvl
      obtain ⟨k, v⟩ := kv
      cases kvs with
      | nil =>
        have hV := ihV v (by simp at hsz; omega) lvl
        simp only [printFields, fsizeFields, List.length_append, nspaces,
          List.length_replicate, List.length_cons]
        omega
      | cons kw kws =>
        have hV := ihV v (by simp at hsz; omega) lvl
        have hF := ihF kw kws (by simp at hsz; omega) lvl
        simp only [printFields, fsizeFields, List.length_append, nspaces,
          List.length_replicate, List.length_cons]
        omega

theorem fsize_le_len (v : J) (lvl : Nat) :
    fsize v ≤ (printJ lvl v).length :=
  (fsize_le_len_aux (sizeOf v + 1)).1 v (Nat.lt_succ_self _) lvl

/-! ### The round-trip: parsing a printed value returns it -/

theorem roundtrip_master : ∀ fuel : Nat,
    (∀ (v : J) (lvl : Nat) (rest : List Char), jwf v = true →
      fsize v ≤ fuel → noDigitHead rest = true →
      parseVal fuel (printJ lvl v ++ rest) = some (v, rest)) ∧
    (∀ (v : J) (vs : List J) (lvl m : Nat) (rest : List Char),
      jwf v = true → jwfItems vs = true → fsizeItems v vs ≤ fuel →
      parseElems fuel
          (printItems lvl v vs ++ '\n' :: (nspaces m ++ ']' :: rest))
        = some (v :: vs, rest)) ∧
    (∀ (kv : String × J) (kvs : List (String × J)) (lvl m : Nat)
      (rest : List Char),
      jwfFields (kv :: kvs) = true → fsizeFields kv kvs ≤ fuel →
      parseFields fuel
          (printFields lvl kv kvs ++ '\n' :: (nspaces m ++ '\x7d' :: rest))
        = some (kv :: kvs, rest)) := by
  intro fuel
  induction fuel with
  | zero =>
    refine ⟨?_, ?_, ?_⟩
    · intro v _ _ _ hfs _
      exact absurd hfs (by have := fsize_pos v; omega)
    · intro v vs _ _ _ _ _ hfs
      exact absurd hfs (by have := fsizeItems_pos v vs; omega)
    · intro kv kvs _ _ _ _ hfs
      exact absurd hfs (by have := fsizeFields_pos kv kvs; omega)
  | succ fuel ih =>
    obtain ⟨ihV, ihI, ihF⟩ := ih
    refine ⟨?_, ?_, ?_⟩
    · -- one value
      intro v lvl rest hwf hfs hnd
      cases v with
      | null =>
        rw [show printJ lvl J.null ++ rest = 'n' :: 'u' :: 'l' :: 'l' :: rest
            from by simp [printJ]]
        simp only [parseVal]
        rw [skipWs_cons_not_ws _ _ (by decide)]
        simp
      | bool b =>
        cases b
        · rw [show printJ lvl (J.bool false) ++ rest
              = 'f' :: 'a' :: 'l' :: 's' :: 'e' :: rest from by simp [printJ]]
          simp only [parseVal]
          rw [skipWs_cons_not_ws _ _ (by decide)]
          simp
        · rw [show printJ lvl (J.bool true) ++ rest
              = 't' :: 'r' :: 'u' :: 'e' :: rest from by simp [printJ]]
          simp only [parseVal]
          rw [skipWs_cons_not_ws _ _ (by decide)]
          simp
      | str s =>
        have hok : ∀ c ∈ s.data, 32 ≤ c.toNat := by
          simp only [jwf, List.all_eq_true, decide_eq_true_eq] at hwf
          exact hwf
        rw [show printJ lvl (J.str s) ++ rest
            = '"' :: ((s.data.map escChar).flatten ++ '"' :: rest) from by
          simp [printJ, escString]]
        simp only [parseVal]
        rw [skipWs_cons_not_ws _ _ (by decide)]
        simp [parseStr_escString s.data hok rest]
      | int n =>
        by_cases hn : n < 0
        · have hpd : parseDigits 0 (natChars (-n).toNat ++ rest)
              = ((-n).toNat, rest) := parseDigits_natChars _ _ hnd
          obtain ⟨d, ds, hds, hd⟩ := natChars_cons (-n).toNat
          have hshape : natChars (-n).toNat ++ rest = d :: (ds ++ rest) := by
            simp [hds]
          rw [show printJ lvl (J.int n) ++ rest
              = '-' :: (natChars (-n).toNat ++ rest) from by
            simp [printJ, intChars, hn]]
          simp only [parseVal]
          rw [skipWs_cons_not_ws _ _ (by decide)]
          rw [hshape] at hpd ⊢
          simp [hd, hpd]
          omega
        · have hpd : parseDigits 0 (natChars n.toNat ++ rest)
              = (n.toNat, rest) := parseDigits_natChars _ _ hnd
          obtain ⟨d, ds, hds, hd⟩ := natChars_cons n.toNat
          obtain ⟨hw, hne1, hne2, hne3, hne4, hne5, hne6, hne7, _, _, _, _⟩ :=
            isDigit_facts d hd
          have hshape : natChars n.toNat ++ rest = d :: (ds ++ rest) := by
            simp [hds]
          rw [show printJ lvl (J.int n) ++ rest = natChars n.toNat ++ rest
              from by simp [printJ, intChars, hn]]
          simp only [parseVal]
          rw [hshape] at hpd ⊢
          rw [skipWs_cons_not_ws _ _ hw]
          simp [hne1, hne2, hne3, hne4, hne5, hne6, hne7, hd, hpd]
          omega
      | arr vs =>
        cases vs with
        | nil =>
          rw [show printJ lvl (J.arr []) ++ rest = '[' :: ']' :: rest from by
            simp [printJ]]
          simp only [parseVal]
          rw [skipWs_cons_not_ws _ _ (by decide)]
          simp [show skipWs (']' :: rest) = ']' :: rest from
            skipWs_cons_not_ws _ _ (by decide)]
        | cons v vs =>
          have hdec : jwf v = true ∧ jwfItems vs = true := by
            simp only [jwf, jwfItems, Bool.and_eq_true] at hwf
            exact hwf
          have hfs' : fsizeItems v vs ≤ fuel := by
            simp only [fsize] at hfs
            omega
          rw [show printJ lvl (J.arr (v :: vs)) ++ rest
              = '[' :: ('\n' :: (printItems (lvl + 1) v vs
                  ++ '\n' :: (nspaces (2 * lvl) ++ ']' :: rest))) from by
            simp [printJ]]
          simp only [parseVal]
          rw [skipWs_cons_not_ws _ _ (by decide)]
          obtain ⟨c2, rest2, hsk, hner, hnec, hback⟩ :=
            skipWs_printItems_head (lvl + 1) v vs
              ('\n' :: (nspaces (2 * lvl) ++ ']' :: rest))
          have hskip2 : skipWs ('\n' :: (printItems (lvl + 1) v vs
              ++ '\n' :: (nspaces (2 * lvl) ++ ']' :: rest))) = c2 :: rest2 := by
            rw [skipWs_cons_ws _ _ (by decide)]
            exact hsk
          have heq : parseElems fuel (c2 :: rest2) = some (v :: vs, rest) := by
            rw [hback, parseElems_skipWs]
            exact ihI v vs (lvl + 1) (2 * lvl) rest hdec.1 hdec.2 hfs'
          simp [hskip2, hner, heq]
      | obj kvs =>
        cases kvs with
        | nil =>
          rw [show printJ lvl (J.obj []) ++ rest = '\x7b' :: '\x7d' :: rest
              from by simp [printJ]]
          simp only [parseVal]
          rw [skipWs_cons_not_ws _ _ (by decide)]
          simp [show skipWs ('\x7d' :: rest) = '\x7d' :: rest from
            skipWs_cons_not_ws _ _ (by decide)]
        | cons kv kvs =>
          have hwf' : jwfFields (kv :: kvs) = true := by
            simpa only [jwf] using hwf
          have hfs' : fsizeFields kv kvs ≤ fuel := by
            simp only [fsize] at hfs
            omega
          rw [show printJ lvl (J.obj (kv :: kvs)) ++ rest
              = '\x7b' :: ('\n' :: (printFields (lvl + 1) kv kvs
                  ++ '\n' :: (nspaces (2 * lvl) ++ '\x7d' :: rest))) from by
            simp [printJ]]
          simp only [parseVal]
          rw [skipWs_cons_not_ws _ _ (by decide)]
          obtain ⟨rest2, hsk⟩ :=
            skipWs_printFields_head (lvl + 1) kv kvs
              ('\n' :: (nspaces (2 * lvl) ++ '\x7d' :: rest))
          have hskip2 : skipWs ('\n' :: (printFields (lvl + 1) kv kvs
              ++ '\n' :: (nspaces (2 * lvl) ++ '\x7d' :: rest))) = '"' :: rest2 := by
            rw [skipWs_cons_ws _ _ (by decide)]
            exact hsk
          have heq : parseFields fuel ('"' :: rest2) = some (kv :: kvs, rest) := by
            rw [← hsk, parseFields_skipWs]
            exact ihF kv kvs (lvl + 1) (2 * lvl) rest hwf' hfs'
          simp [hskip2, heq]
    · -- remaining array elements
      intro v vs lvl m rest hv hvs hfs
      cases vs with
      | nil =>
        have hfsv : fsize v ≤ fuel := by
          simp only [fsizeItems] at hfs
          omega
        simp only [parseElems]
        rw [show printItems lvl v [] ++ '\n' :: (nspaces m ++ ']' :: rest)
            = nspaces (2 * lvl)
              ++ (printJ lvl v ++ ('\n' :: (nspaces m ++ ']' :: rest)))
          from by simp [printItems]]
        rw [parseVal_nspaces]
        rw [ihV v lvl _ hv hfsv (by simp [noDigitHead])]
        simp [show skipWs ('\n' :: (nspaces m ++ ']' :: rest)) = ']' :: rest
          from by
            rw [skipWs_cons_ws _ _ (by decide), skipWs_nspaces,
              skipWs_cons_not_ws _ _ (by decide)]]
      | cons w ws =>
        have hfsv : fsize v ≤ fuel := by
          simp only [fsizeItems] at hfs
          omega
        have hfsI : fsizeItems w ws ≤ fuel := by
          simp only [fsizeItems] at hfs
          omega
        have hdec : jwf w = true ∧ jwfItems ws = true := by
          simp only [jwfItems, Bool.and_eq_true] at hvs
          exact hvs
        simp only [parseElems]
        rw [show printItems lvl v (w :: ws) ++ '\n' :: (nspaces m ++ ']' :: rest)
            = nspaces (2 * lvl) ++ (printJ lvl v ++ (',' :: ('\n'
                :: (printItems lvl w ws ++ '\n' :: (nspaces m ++ ']' :: rest)))))
          from by simp [printItems]]
        rw [parseVal_nspaces]
        rw [ihV v lvl _ hv hfsv (by simp [noDigitHead])]
        have hskip2 : skipWs (',' :: ('\n' :: (printItems lvl w ws
            ++ '\n' :: (nspaces m ++ ']' :: rest))))
          = ',' :: ('\n' :: (printItems lvl w ws
              ++ '\n' :: (nspaces m ++ ']' :: rest))) :=
          skipWs_cons_not_ws _ _ (by decide)
        have heq : parseElems fuel ('\n' :: (printItems lvl w ws
            ++ '\n' :: (nspaces m ++ ']' :: rest))) = some (w :: ws, rest) := by
          rw [parseElems_cons_ws _ _ _ (by decide)]
          exact ihI w ws lvl m rest hdec.1 hdec.2 hfsI
        simp [hskip2, heq]
    · -- remaining object fields
      intro kv kvs lvl m rest hwf hfs
      obtain ⟨k, v⟩ := kv
      have hdec : (∀ c ∈ k.data, 32 ≤ c.toNat) ∧ jwf v = true
          ∧ jwfFields kvs = true := by
        simp only [jwfFields, Bool.and_eq_true, List.all_eq_true,
          decide_eq_true_eq] at hwf
        exact ⟨hwf.1.1, hwf.1.2, hwf.2⟩
      have hfsv : fsize v ≤ fuel := by
        obtain ⟨hk, hv, hkvs⟩ := hdec
        cases kvs with
        | nil => simp only [fsizeFields] at hfs; omega
        | cons kw kws => simp only [fsizeFields] at hfs; omega
      cases kvs with
      | nil =>
        simp only [parseFields]
        rw [show printFields lvl (k, v) [] ++ '\n' :: (nspaces m ++ '\x7d' :: rest)
            = nspaces (2 * lvl) ++ ('"' :: ((k.data.map escChar).flatten
              ++ '"' :: (':' :: (' ' :: (printJ lvl v
                ++ '\n' :: (nspaces m ++ '\x7d' :: rest))))))
          from by simp [printFields, escString]]
        rw [show skipWs (nspaces (2 * lvl) ++ ('"' :: ((k.data.map escChar).flatten
              ++ '"' :: (':' :: (' ' :: (printJ lvl v
                ++ '\n' :: (nspaces m ++ '\x7d' :: rest)))))))
            = '"' :: ((k.data.map escChar).flatten
              ++ '"' :: (':' :: (' ' :: (printJ lvl v
                ++ '\n' :: (nspaces m ++ '\x7d' :: rest)))))
          from by rw [skipWs_nspaces, skipWs_cons_not_ws _ _ (by decide)]]
        have hstr : parseStr ((k.data.map escChar).flatten
              ++ '"' :: (':' :: (' ' :: (printJ lvl v
                ++ '\n' :: (nspaces m ++ '\x7d' :: rest)))))
            = some (k.data, ':' :: (' ' :: (printJ lvl v
                ++ '\n' :: (nspaces m ++ '\x7d' :: rest)))) :=
          parseStr_escString k.data hdec.1 _
        have hsk1 : skipWs (':' :: (' ' :: (printJ lvl v
              ++ '\n' :: (nspaces m ++ '\x7d' :: rest))))
            = ':' :: (' ' :: (printJ lvl v
              ++ '\n' :: (nspaces m ++ '\x7d' :: rest))) :=
          skipWs_cons_not_ws _ _ (by decide)
        have hval : parseVal fuel (' ' :: (printJ lvl v
            ++ '\n' :: (nspaces m ++ '\x7d' :: rest)))
            = some (v, '\n' :: (nspaces m ++ '\x7d' :: rest)) := by
          rw [parseVal_cons_ws _ _ _ (by decide)]
          exact ihV v lvl _ hdec.2.1 hfsv (by simp [noDigitHead])
        have hsk2 : skipWs ('\n' :: (nspaces m ++ '\x7d' :: rest))
            = '\x7d' :: rest := by
          rw [skipWs_cons_ws _ _ (by decide), skipWs_nspaces,
            skipWs_cons_not_ws _ _ (by decide)]
        simp [hstr, hsk1, hval, hsk2]
      | cons kw kws =>
        have hfsF : fsizeFields kw kws ≤ fuel := by
          simp only [fsizeFields] at hfs
          omega
        have hkws : jwfFields (kw :: kws) = true := hdec.2.2
        simp only [parseFields]
        rw [show printFields lvl (k, v) (kw :: kws)
              ++ '\n' :: (nspaces m ++ '\x7d' :: rest)
            = nspaces (2 * lvl) ++ ('"' :: ((k.data.map escChar).flatten
              ++ '"' :: (':' :: (' ' :: (printJ lvl v ++ (',' :: ('\n'
                :: (printFields lvl kw kws
                  ++ '\n' :: (nspaces m ++ '\x7d' :: rest)))))))))
          from by simp [printFields, escString]]
        rw [show skipWs (nspaces (2 * lvl) ++ ('"' :: ((k.data.map escChar).flatten
              ++ '"' :: (':' :: (' ' :: (printJ lvl v ++ (',' :: ('\n'
                :: (printFields lvl kw kws
                  ++ '\n' :: (nspaces m ++ '\x7d' :: rest))))))))))
            = '"' :: ((k.data.map escChar).flatten
              ++ '"' :: (':' :: (' ' :: (printJ lvl v ++ (',' :: ('\n'
                :: (printFields lvl kw kws
                  ++ '\n' :: (nspaces m ++ '\x7d' :: rest))))))))
          from by rw [skipWs_nspaces, skipWs_cons_not_ws _ _ (by decide)]]
        have hstr : parseStr ((k.data.map escChar).flatten
              ++ '"' :: (':' :: (' ' :: (printJ lvl v ++ (',' :: ('\n'
                :: (printFields lvl kw kws
                  ++ '\n' :: (nspaces m ++ '\x7d' :: rest))))))))
            = some (k.data, ':' :: (' ' :: (printJ lvl v ++ (',' :: ('\n'
                :: (printFields lvl kw kws
                  ++ '\n' :: (nspaces m ++ '\x7d' :: rest))))))) :=
          parseStr_escString k.data hdec.1 _
        have hsk1 : skipWs (':' :: (' ' :: (printJ lvl v ++ (',' :: ('\n'
              :: (printFields lvl kw kws
                ++ '\n' :: (nspaces m ++ '\x7d' :: rest)))))))
            = ':' :: (' ' :: (printJ lvl v ++ (',' :: ('\n'
              :: (printFields lvl kw kws
                ++ '\n' :: (nspaces m ++ '\x7d' :: rest)))))) :=
          skipWs_cons_not_ws _ _ (by decide)
        have hval : parseVal fuel (' ' :: (printJ lvl v ++ (',' :: ('\n'
            :: (printFields lvl kw kws ++ '\n' :: (nspaces m ++ '\x7d' :: rest))))))
            = some (v, ',' :: ('\n' :: (printFields lvl kw kws
                ++ '\n' :: (nspaces m ++ '\x7d' :: rest)))) := by
          rw [parseVal_cons_ws _ _ _ (by decide)]
          exact ihV v lvl _ hdec.2.1 hfsv (by simp [noDigitHead])
        have hsk2 : skipWs (',' :: ('\n' :: (printFields lvl kw kws
              ++ '\n' :: (nspaces m ++ '\x7d' :: rest))))
            = ',' :: ('\n' :: (printFields lvl kw kws
              ++ '\n' :: (nspaces m ++ '\x7d' :: rest))) :=
          skipWs_cons_not_ws _ _ (by decide)
        have heq : parseFields fuel ('\n' :: (printFields lvl kw kws
            ++ '\n' :: (nspaces m ++ '\x7d' :: rest)))
            = some ((kw :: kws), rest) := by
          rw [parseFields_cons_ws _ _ _ (by decide)]
          exact ihF kw kws lvl m rest hkws hfsF
        simp [hstr, hsk1, hval, hsk2, heq]

/-- A concrete stop-and-search record with a nested object, used as the
round-trip witness input. -/
def sampleRecords : List Record :=
  [[("age_range", J.str "18-24"), ("involved_person", J.bool true),
    ("outcome", J.null),
    ("location", J.obj [("latitude", J.str "52.6"),
                        ("street", J.obj [("id", J.int 883407)])])]]

/-- C8: deserializing the text that `save_data` writes to
`<base_path>.json` reproduces the in-memory record sequence exactly —
field for field, nested structure for nested structure, in order — for
every record list in the serializable domain (no control characters in
strings). -/
theorem json_roundtrip (all_records : List Record) (output_base : String)
    (h : jwf (J.arr (all_records.map J.obj)) = true) :
    (save_data_jsonFile all_records output_base).1 = output_base ++ ".json" ∧
    pyLoads (save_data_jsonFile all_records output_base).2
      = some (J.arr (all_records.map J.obj)) := by
  refine ⟨rfl, ?_⟩
  have hlen : fsize (J.arr (all_records.map J.obj))
      ≤ (printJ 0 (J.arr (all_records.map J.obj))).length + 1 := by
    have := fsize_le_len (J.arr (all_records.map J.obj)) 0
    omega
  have hmain := (roundtrip_master
      ((printJ 0 (J.arr (all_records.map J.obj))).length + 1)).1
    (J.arr (all_records.map J.obj)) 0 [] h hlen (by simp [noDigitHead])
  rw [List.append_nil] at hmain
  show pyLoads (pyDumps (J.arr (all_records.map J.obj)))
    = some (J.arr (all_records.map J.obj))
  unfold pyLoads pyDumps
  rw [show (String.mk (printJ 0 (J.arr (all_records.map J.obj)))).data
      = printJ 0 (J.arr (all_records.map J.obj)) from rfl]
  rw [hmain]
  simp [skipWs]

/-- Witness for C8 on a nested concrete record. -/
theorem json_roundtrip_witness :
    (save_data_jsonFile sampleRecords "data/stop_search_data/ssd_a-b").1
        = "data/stop_search_data/ssd_a-b" ++ ".json" ∧
    pyLoads (save_data_jsonFile sampleRecords "data/stop_search_data/ssd_a-b").2
      = some (J.arr (sampleRecords.map J.obj)) :=
  json_roundtrip sampleRecords "data/stop_search_data/ssd_a-b"
    (by simp [sampleRecords, jwf, jwfItems, jwfFields] <;> decide)
